import Mathlib

/-!
Shallow embedding of src/scraper/scrape_nsaa_volleyball.py.

The script fetches NSAA volleyball class pages, extracts per-team schedule
tables, and writes a JSON document mapping canonical team keys to record
sequences.  The embedding below models the parsed-HTML inputs of
parse_class_page as, for each caption found in the document, the caption
text together with the rows of its enclosing table (each row reduced to the
texts of its th cells, the texts of its td cells, and whether a caption
element occurs inside the row).  Python dicts are modelled as association
lists with insertion-order semantics; a dict value that is Python None is
modelled as Option.none.
-/

namespace NsaaVb

/-- Substring helper: does the needle match at the front of the haystack? -/
def matchFront : List Char → List Char → Bool
  | [], _ => true
  | _ :: _, [] => false
  | n :: ns, h :: hs => n == h && matchFront ns hs

/-- Substring helper: does the needle occur anywhere in the haystack? -/
def subList : List Char → List Char → Bool
  | n, [] => n.isEmpty
  | n, h :: hs => matchFront n (h :: hs) || subList n hs

/-- Embeds the Python substring test, as in the expression
"Total Points" in tds[0] on line 92 of the source. -/
def containsSub (hay needle : String) : Bool :=
  subList needle.data hay.data

/-- Embeds norm (source lines 19-20): lowercase the string and strip every
character that is not a lowercase letter or a digit. -/
def norm (s : String) : String :=
  String.mk ((s.data.map Char.toLower).filter fun c => c.isLower || c.isDigit)

/-- Character class of the regex bracket [\d\-] used on source line 38. -/
def isDigitOrDash (c : Char) : Bool :=
  c.isDigit || c == '-'

/-- Embeds the regex substitution on source line 38: remove a trailing
parenthetical of digits and hyphens, together with surrounding whitespace,
from the end of the display name.  Matching is done from the right; since
the caller immediately trims the result, removing the whitespace around the
parenthetical exactly reproduces the regex on the inputs of interest. -/
def stripParenSuffix (s : String) : String :=
  match s.data.reverse.dropWhile Char.isWhitespace with
  | ')' :: r2 =>
    match r2.takeWhile isDigitOrDash, r2.dropWhile isDigitOrDash with
    | _ :: _, '(' :: r4 => String.mk (r4.dropWhile Char.isWhitespace).reverse
    | _, _ => s
  | _ => s

/-- Embeds the Python str.strip() call on source line 38: remove whitespace
from both ends of the string. -/
def pyStrip (s : String) : String :=
  String.mk (((s.data.dropWhile Char.isWhitespace).reverse.dropWhile Char.isWhitespace).reverse)

/-- One tr element of a table, reduced to the data the script reads from it:
the texts of its th cells, the texts of its td cells (via get_text with
strip), and whether a caption element occurs among its descendants. -/
structure Row where
  ths : List String
  tds : List String
  hasCaption : Bool
deriving DecidableEq, Repr

/-- One caption found in the document: its stripped text and, when the
caption has an enclosing table, that table's tr elements in document order
(the trs of one table are mutual siblings, so find_next_siblings on one of
them yields exactly the rows that follow it in this list). -/
structure CapEntry where
  caption : String
  table : Option (List Row)
deriving DecidableEq, Repr

/-- The row dict built for one data row: keys in insertion order, each value
either a cell text or Python None (modelled as none). -/
abbrev RowDict := List (String × Option String)

/-- One result record: the column dict plus the three helper fields attached
on source lines 113-115. -/
structure ResultRec where
  cols : RowDict
  team : String
  teamDisplay : String
  classEff : String
deriving DecidableEq, Repr

/-- The by_team mapping: insertion-ordered dict from team key to records. -/
abbrev ByTeam := List (String × List ResultRec)

/-- The header-row test of source line 59: the collected th texts are
non-empty and contain both "Date" and "Opponent". -/
def headerMatch (ths : List String) : Bool :=
  !ths.isEmpty && ths.contains "Date" && ths.contains "Opponent"

/-- Loop of source lines 57-61, tracking the running value of the headers
variable: at each row, headers is reassigned to the row's th texts; on a
match the loop breaks with that row's position.  Returns the final value of
headers together with the matched row index, if any. -/
def findHeaderGo : List Row → Nat → List String → List String × Option Nat
  | [], _, hs => (hs, none)
  | r :: rest, i, _ =>
    if headerMatch r.ths then (r.ths, some i) else findHeaderGo rest (i + 1) r.ths

/-- Header search over a table's rows, starting from headers = [] as on
source line 56. -/
def findHeader (rows : List Row) : List String × Option Nat :=
  findHeaderGo rows 0 []

/-- Embeds idx (source lines 66-68): position of the first exact occurrence
of the column label in the header texts, none when absent. -/
def idx (headers : List String) (col : String) : Option Nat :=
  headers.findIdx? (· == col)

/-- The column labels looked up on source lines 70-82, in the order their
fields are written into the row dict on lines 98-110. -/
def recognizedCols : List String :=
  ["Date", "Opponent", "Class", "W-L", "W/L", "Score", "Points",
   "Tournament Name", "Tournament Location", "Site", "Time", "Home/Away", "Div"]

/-- Embeds lines 95-110: for each recognized column whose index is defined,
insert a key whose value is val(i), i.e. the cell text when the index is in
range of the row's td list and None otherwise. -/
def buildCols (hs tds : List String) : RowDict :=
  recognizedCols.filterMap fun col => (idx hs col).map fun i => (col, tds[i]?)

/-- Python d.get(k) on a row dict: none when the key is absent, otherwise
the stored value (which may itself be Python None). -/
def dictGetOpt (d : RowDict) (k : String) : Option (Option String) :=
  (d.find? (·.1 == k)).map (·.2)

/-- Python truthiness-based x or dflt for an optional-string dict lookup,
as in the expression (row.get("Class") or cls_code) on source line 115. -/
def pyOr (v : Option (Option String)) (dflt : String) : String :=
  match v with
  | some (some s) => if s = "" then dflt else s
  | _ => dflt

/-- Build the full record for one data row: the column dict of lines
98-110 plus the helper fields of lines 113-115. -/
def buildRec (hs tds : List String) (team disp code : String) : ResultRec :=
  let cols := buildCols hs tds
  { cols := cols, team := team, teamDisplay := disp,
    classEff := pyOr (dictGetOpt cols "Class") code }

/-- Python truthiness of one dict value in the generator on line 118:
v and v != "-". -/
def optNonBlank : Option String → Bool
  | some v => v != "" && v != "-"
  | none => false

/-- Truthiness test for the plain-string helper values on line 118. -/
def strNonBlank (s : String) : Bool :=
  s != "" && s != "-"

/-- Embeds the blank-separator test of source line 118 applied to
row.values(): the column values together with _team, _team_display and
_class. -/
def anyNonBlank (r : ResultRec) : Bool :=
  r.cols.any (fun p => optNonBlank p.2) || strNonBlank r.team
    || strNonBlank r.teamDisplay || strNonBlank r.classEff

/-- Embeds the row walk of source lines 86-121 over the rows following the
header row: break on a row containing a caption; skip rows without td
cells; break on a single-cell row whose text contains "Total Points";
otherwise build the record and append it unless every value is blank. -/
def walkRows (hs : List String) (team disp code : String) : List Row → List ResultRec
  | [] => []
  | r :: rest =>
    if r.hasCaption then []
    else if r.tds.isEmpty then walkRows hs team disp code rest
    else if r.tds.length == 1 && containsSub (r.tds.headD "") "Total Points" then []
    else if anyNonBlank (buildRec hs r.tds team disp code) then
      buildRec hs r.tds team disp code :: walkRows hs team disp code rest
    else walkRows hs team disp code rest

/-- The stopping condition of the row walk (lines 88 and 92): a nested
caption, or exactly one data cell whose text contains "Total Points". -/
def stopRow (r : Row) : Bool :=
  r.hasCaption || (r.tds.length == 1 && containsSub (r.tds.headD "") "Total Points")

/-- Python dict assignment d[k] = v on an insertion-ordered dict: an
existing key keeps its position and gets the new value, a new key is
appended at the end. -/
def dictSet {α : Type} : List (String × α) → String → α → List (String × α)
  | [], k, v => [(k, v)]
  | p :: rest, k, v => if p.1 == k then (k, v) :: rest else p :: dictSet rest k v

/-- Python dict lookup d[k] / d.get(k) on an insertion-ordered dict. -/
def dictGet {α : Type} (m : List (String × α)) (k : String) : Option α :=
  (m.find? (·.1 == k)).map (·.2)

/-- Python d.update(data): set every key of data, in data's order. -/
def dictUpdate {α : Type} (m data : List (String × α)) : List (String × α) :=
  data.foldl (fun acc p => dictSet acc p.1 p.2) m

/-- The key list of a dict. -/
def keys {α : Type} (m : List (String × α)) : List String :=
  m.map (·.1)

/-- State threaded through the caption loop of parse_class_page: the
accumulating by_team dict, and the current binding of the function-scoped
header_tr variable — the rows of the table it was last bound in together
with its index there (none when it has never been assigned; using it then
is Python's unbound-local error, modelled as Except.error ()). -/
abbrev ParseState := ByTeam × Option (List Row × Nat)

/-- Embeds one iteration of the caption loop, source lines 32-124: derive
the team name and key from the caption (lines 33-39); search for the header
row (lines 56-61); when none matched, skip the table only if the final
value of headers is empty (lines 62-63), otherwise fall through to line 85
where header_tr is either unbound (error) or stale from an earlier table;
walk the rows following the bound header row and store the non-empty result
under the team key (lines 85-124). -/
def processCaption (code : String) (st : ParseState) (e : CapEntry) : Except Unit ParseState :=
  match e.table with
  | none => .ok st
  | some trs =>
    let teamDisplay := e.caption
    let teamName := pyStrip (stripParenSuffix teamDisplay)
    let key := norm teamName
    match findHeader trs with
    | (hs, some i) =>
      let rows := walkRows hs teamName teamDisplay code (trs.drop (i + 1))
      .ok (if rows.isEmpty then st.1 else dictSet st.1 key rows, some (trs, i))
    | (hs, none) =>
      if hs.isEmpty then .ok st
      else
        match st.2 with
        | none => .error ()
        | some (oldTrs, oldI) =>
          let rows := walkRows hs teamName teamDisplay code (oldTrs.drop (oldI + 1))
          .ok (if rows.isEmpty then st.1 else dictSet st.1 key rows, st.2)

/-- The caption loop itself: process each caption entry in document order,
propagating an unbound-local error. -/
def runCaptions (code : String) : List CapEntry → ParseState → Except Unit ParseState
  | [], st => .ok st
  | e :: rest, st =>
    match processCaption code st e with
    | .error u => .error u
    | .ok st2 => runCaptions code rest st2

/-- Embeds parse_class_page (source lines 27-126) on an already-parsed
document, given as the list of caption entries in document order. -/
def parse_class_page (entries : List CapEntry) (code : String) : Except Unit ByTeam :=
  (runCaptions code entries ([], none)).map (·.1)

/-- The fixed classification table CLASS_URLS (source lines 10-17), whose
iteration order is its insertion order. -/
def CLASS_URLS : List (String × String) :=
  [("A", "https://nsaa-static.s3.amazonaws.com/calculate/showclassvbA.html"),
   ("B", "https://nsaa-static.s3.amazonaws.com/calculate/showclassvbB.html"),
   ("C1", "https://nsaa-static.s3.amazonaws.com/calculate/showclassvbC1.html"),
   ("C2", "https://nsaa-static.s3.amazonaws.com/calculate/showclassvbC2.html"),
   ("D1", "https://nsaa-static.s3.amazonaws.com/calculate/showclassvbD1.html"),
   ("D2", "https://nsaa-static.s3.amazonaws.com/calculate/showclassvbD2.html")]

/-- One classification's outcome as seen by the driver: the classification
code paired with either the parsed caption entries of the fetched page or a
fetch failure. -/
abbrev Page := String × Except Unit (List CapEntry)

/-- The body of the try block in main (source lines 131-134) up to the
update: fetch outcome composed with parse_class_page; an exception in
either stage surfaces as an error for this classification. -/
def classData (code : String) (page : Except Unit (List CapEntry)) : Except Unit ByTeam :=
  match page with
  | .error u => .error u
  | .ok entries => parse_class_page entries code

/-- Embeds the accumulation of all_by_team in main (source lines 129-136):
each classification in order either merges its data via dict update or, on
failure, leaves the accumulator unchanged. -/
def mainByTeam (pages : List Page) : ByTeam :=
  pages.foldl
    (fun acc p =>
      match classData p.1 p.2 with
      | .error _ => acc
      | .ok data => dictUpdate acc data) []

/-- Embeds the warning lines printed by main (source line 136): one entry,
carrying the classification code, per failed classification, in order. -/
def mainWarnings (pages : List Page) : List String :=
  pages.filterMap fun p =>
    match classData p.1 p.2 with
    | .error _ => some p.1
    | .ok _ => none

/-- The output document written by main (source lines 138-142). -/
structure OutputDoc where
  updated : Nat
  by_team : ByTeam
deriving DecidableEq, Repr

/-- Construction of the output document at the end of a run. -/
def outputDoc (updated : Nat) (pages : List Page) : OutputDoc :=
  { updated := updated, by_team := mainByTeam pages }

/-! ### Concrete inputs used by the evaluation theorems below -/

/-- A header row whose th cells carry the labels "Date" and "Opponent". -/
def exRowHeaderDO : Row := ⟨["Date", "Opponent"], [], false⟩

/-- A page with one team table whose only data row is the single cell "-". -/
def exBlankDoc : List CapEntry :=
  [⟨"Arlington (1-2)", some [exRowHeaderDO, ⟨[], ["-"], false⟩]⟩]

/-- A page whose table labels its header row with data (td) cells rather
than header (th) cells. -/
def exTdHeaderDoc : List CapEntry :=
  [⟨"T (1-2)", some [⟨[], ["Date", "Opponent"], false⟩, ⟨[], ["9/1", "Foo"], false⟩]⟩]

/-- A page whose table labels its opponent column "Opponents" (plural). -/
def exPluralDoc : List CapEntry :=
  [⟨"T (1-2)", some [⟨["Date", "Opponents"], [], false⟩, ⟨[], ["9/1", "Foo"], false⟩]⟩]

/-- A page with a single table that has no header row, but whose last row
carries th cells. -/
def exHeaderlessThDoc : List CapEntry :=
  [⟨"Bad (0-1)", some [⟨["Foo"], [], false⟩]⟩]

/-- A page whose table has a one-cell "Win %" row between two data rows. -/
def exWinPctDoc : List CapEntry :=
  [⟨"T (1-0)", some [exRowHeaderDO, ⟨[], ["9/1", "Foo"], false⟩,
    ⟨[], ["Win %"], false⟩, ⟨[], ["9/2", "Bar"], false⟩]⟩]

/-- A well-formed page for the team captioned "Team X (3-1)". -/
def exTeamXDoc : List CapEntry :=
  [⟨"Team X (3-1)", some [exRowHeaderDO, ⟨[], ["9/1", "Foo"], false⟩]⟩]

/-- The record extracted from the single data row of exTeamXDoc. -/
def recTeamX : ResultRec :=
  ⟨[("Date", some "9/1"), ("Opponent", some "Foo")], "Team X", "Team X (3-1)", "A"⟩

/-- A page for a team whose key canonicalizes to "t", as fetched for
classification "A". -/
def exPageA : List CapEntry :=
  [⟨"T (1-0)", some [exRowHeaderDO, ⟨[], ["9/1", "X"], false⟩]⟩]

/-- A page for a team with the same key "t", as fetched for
classification "B". -/
def exPageB : List CapEntry :=
  [⟨"T (2-0)", some [exRowHeaderDO, ⟨[], ["9/2", "Y"], false⟩]⟩]

/-- The record parse_class_page extracts from exPageA under code "A". -/
def recTA : ResultRec :=
  ⟨[("Date", some "9/1"), ("Opponent", some "X")], "T", "T (1-0)", "A"⟩

/-- The record parse_class_page extracts from exPageB under code "B". -/
def recTB : ResultRec :=
  ⟨[("Date", some "9/2"), ("Opponent", some "Y")], "T", "T (2-0)", "B"⟩

/-- Classification "A" succeeding with exPageA. -/
def pageGoodA : Page := ("A", .ok exPageA)

/-- Classification "B" succeeding with exPageB. -/
def pageGoodB : Page := ("B", .ok exPageB)

/-- Classification "C1" whose fetch fails. -/
def pageErrC1 : Page := ("C1", .error ())

/-- A run in which every classification fails: one fetch failure and one
page whose parse raises the unbound-local error. -/
def pagesAllFail : List Page := [("A", .error ()), ("B", .ok exHeaderlessThDoc)]

/-! ### Claim theorems -/

/-- C1: the spec says a data row whose only cell text is "-" contributes no
record, and the source comment on line 117 announces the same intent
("skip blank separators"); but the check on line 118 runs after the
non-blank helper fields _team, _team_display and _class are attached on
lines 113-115, so with a non-empty classification code it never discards
anything: the all-hyphen data row of exBlankDoc is appended as a record. -/
theorem c1_blank_dash_row_is_appended :
    parse_class_page exBlankDoc "A" =
      .ok [("arlington",
        [⟨[("Date", some "-"), ("Opponent", none)],
          "Arlington", "Arlington (1-2)", "A"⟩])] := by
  rfl

/-- C2 counterexample: the claim says header cells and data cells are both
consulted and that a pluralized "Opponents" label is normalized to
"Opponent" and recognized; the code reads only th cells (line 58) and
compares labels exactly (line 59), so a table whose header labels sit in td
cells, and a table whose th labels read "Date"/"Opponents", each yield an
empty mapping instead of a table keyed "t" with its data row. -/
theorem c2_counterexample :
    parse_class_page exTdHeaderDoc "A" = .ok []
      ∧ parse_class_page exPluralDoc "A" = .ok [] :=
  ⟨rfl, rfl⟩

/-- C3 counterexample: the claim says a table with no Date/Opponent row is
silently skipped with no error and no effect on other tables; on a
document whose only table has th cells in its final row but no matching
header row, the headers variable is non-empty, the skip on lines 62-63 is
not taken, and line 85 reads the never-assigned header_tr variable — the
parse raises instead of returning a mapping. -/
theorem c3_counterexample :
    parse_class_page exHeaderlessThDoc "A" = .error () := by
  rfl

/-- C4 counterexample: the claim says row iteration stops at the first row
containing "Total Points", "Average Points", or "Win %" in any cell, with
no later row included; the code (line 92) stops only on a single-cell row
containing "Total Points", so the one-cell "Win %" row of exWinPctDoc does
not stop the walk — it is itself recorded (as a Date value) and the
well-formed row after it is also included, giving three records where the
claim allows one. -/
theorem c4_counterexample :
    parse_class_page exWinPctDoc "A" =
      .ok [("t",
        [⟨[("Date", some "9/1"), ("Opponent", some "Foo")], "T", "T (1-0)", "A"⟩,
         ⟨[("Date", some "Win %"), ("Opponent", none)], "T", "T (1-0)", "A"⟩,
         ⟨[("Date", some "9/2"), ("Opponent", some "Bar")], "T", "T (1-0)", "A"⟩])] := by
  rfl

/-- C5 counterexample: the claim says a recognized column whose header
index is out of range of the row's cells is omitted from the record
entirely, not set to a null value; the code (lines 95-110) stores val(i),
which is None when the index is out of range, under the column key whenever
the index is defined — here "Score" has index 2, the row has two cells, and
the built dict carries the key "Score" with a null value. -/
theorem c5_counterexample :
    dictGetOpt (buildCols ["Date", "Opponent", "Score"] ["9/1", "Foo"]) "Score"
      = some none := by
  rfl

/-- C9: a caption reading "Team X (3-1)" yields Team Name "Team X" (the
trailing parenthetical record stripped and whitespace trimmed) and Team Key
"teamx" (lowercased, non-alphanumeric characters stripped), and on a
well-formed page with a Date/Opponent header row the extractor files the
table's records under that key with that name. -/
theorem c9_caption_team_name_and_key :
    pyStrip (stripParenSuffix "Team X (3-1)") = "Team X"
      ∧ norm "Team X" = "teamx"
      ∧ parse_class_page exTeamXDoc "A" = .ok [("teamx", [recTeamX])] :=
  ⟨rfl, rfl, rfl⟩

/-! ### Helper lemmas -/

/-- The header scan agrees with findIdx? at every start index. -/
theorem findHeaderGo_snd (rows : List Row) :
    ∀ (i : Nat) (hs : List String),
      (findHeaderGo rows i hs).2 = rows.findIdx? (fun r => headerMatch r.ths) i := by
  induction rows with
  | nil => intro i hs; rfl
  | cons r rest ih =>
    intro i hs
    cases h : headerMatch r.ths with
    | true => simp [findHeaderGo, h]
    | false => simp [findHeaderGo, h, ih]

/-- When the header scan finds a row, the headers value it returns satisfies
the header test (in particular it is non-empty). -/
theorem findHeaderGo_fst_of_some (rows : List Row) :
    ∀ (i : Nat) (hs : List String),
      ((findHeaderGo rows i hs).2).isSome = true →
        headerMatch (findHeaderGo rows i hs).1 = true := by
  induction rows with
  | nil => intro i hs h; simp [findHeaderGo] at h
  | cons r rest ih =>
    intro i hs h
    cases hm : headerMatch r.ths with
    | true => simp [findHeaderGo, hm]
    | false =>
      rw [findHeaderGo, if_neg (by simp [hm])] at h ⊢
      exact ih (i + 1) r.ths h

/-- C2 (amended): the header row chosen for a table is the first row whose
header-cell (th) texts include both the literal label "Date" and the
literal label "Opponent"; data cells are never consulted for header
detection and no pluralized label is normalized, so a row labelled
"Opponents" is not recognized. -/
theorem c2_header_is_first_th_row_with_date_and_opponent (rows : List Row) :
    (findHeader rows).2 = rows.findIdx? fun r => headerMatch r.ths :=
  findHeaderGo_snd rows 0 []

/-- C3 (amended): a table containing no row whose th texts include both
"Date" and "Opponent" is silently skipped — contributing zero entries and
leaving every other table's extraction unchanged — provided the final value
of the headers variable is empty (its last row has no th cells, or it has
no rows); when that value is non-empty the code instead reaches the stale
or unbound header_tr variable on line 85. -/
theorem c3_headerless_table_skipped (code cap : String) (trs : List Row)
    (rest : List CapEntry) (st : ParseState)
    (h : (findHeader trs).1 = []) :
    runCaptions code (⟨cap, some trs⟩ :: rest) st = runCaptions code rest st := by
  have h2 : (findHeader trs).2 = none := by
    cases h2 : (findHeader trs).2 with
    | none => rfl
    | some i =>
      have h3 : ((findHeader trs).2).isSome = true := by rw [h2]; rfl
      have h4 := findHeaderGo_fst_of_some trs 0 [] h3
      rw [show (findHeaderGo trs 0 []).1 = (findHeader trs).1 from rfl, h] at h4
      simp [headerMatch] at h4
  have hfh : findHeader trs = ([], none) := by
    rw [Prod.ext_iff]; exact ⟨h, h2⟩
  have hp : processCaption code st ⟨cap, some trs⟩ = .ok st := by
    simp [processCaption, hfh]
  simp [runCaptions, hp]

/-- C3 witness: a one-row table whose row has only data cells is skipped
and the rest of the document parses as if the table were absent. -/
theorem c3_witness :
    runCaptions "A" [⟨"Bad (0-1)", some [⟨[], ["x"], false⟩]⟩] ([], none)
      = runCaptions "A" [] ([], none) :=
  c3_headerless_table_skipped "A" "Bad (0-1)" [⟨[], ["x"], false⟩] [] ([], none) rfl

/-- C4 (amended): the walk over the rows after the header row stops at the
first row that contains a nested caption or consists of exactly one data
cell whose text contains "Total Points"; no row at or after that stopping
row contributes a record.  Rows mentioning "Average Points" or "Win %"
that do not have that shape do not stop the walk. -/
theorem c4_walk_stops_at_first_stop_row (hs : List String) (team disp code : String)
    (l : List Row) :
    walkRows hs team disp code l
      = walkRows hs team disp code (l.takeWhile fun r => !stopRow r) := by
  induction l with
  | nil => rfl
  | cons r rest ih =>
    by_cases hc : r.hasCaption
    · simp [walkRows, stopRow, hc, List.takeWhile_cons]
    · by_cases he : r.tds.isEmpty
      · have htds : r.tds = [] := by simpa [List.isEmpty_iff] using he
        simp [walkRows, stopRow, hc, htds, List.takeWhile_cons, ih]
      · by_cases h1 : r.tds.length = 1 <;>
          by_cases h2 : containsSub (r.tds.head?.getD "") "Total Points" <;>
          simp [walkRows, stopRow, hc, he, h1, h2, List.takeWhile_cons, ih]

/-- Looking up a key that is not in the generating list of a keyed filterMap
finds nothing. -/
theorem find?_filterMap_of_not_mem (g : String → Option (Option String)) :
    ∀ (l : List String) (col : String), col ∉ l →
      (l.filterMap fun c => (g c).map fun v => (c, v)).find? (·.1 == col) = none := by
  intro l
  induction l with
  | nil => intro col h; rfl
  | cons c rest ih =>
    intro col h
    have hc : ¬ c = col := fun he => h (he ▸ List.mem_cons_self c rest)
    have hcol : col ∉ rest := fun hm => h (List.mem_cons_of_mem c hm)
    cases hg : g c with
    | none => simpa [List.filterMap_cons, hg] using ih col hcol
    | some v => simpa [List.filterMap_cons, hg, List.find?_cons, hc] using ih col hcol

/-- Looking up a key of the generating list of a keyed filterMap recovers
exactly the generator's value at that key, when the keys are distinct. -/
theorem find?_filterMap_of_mem (g : String → Option (Option String)) :
    ∀ (l : List String), l.Nodup → ∀ col ∈ l,
      ((l.filterMap fun c => (g c).map fun v => (c, v)).find? (·.1 == col)).map (·.2)
        = g col := by
  intro l
  induction l with
  | nil => intro _ col hcol; cases hcol
  | cons c rest ih =>
    intro hnd col hcol
    have hnd2 : rest.Nodup := (List.nodup_cons.mp hnd).2
    have hcnr : c ∉ rest := (List.nodup_cons.mp hnd).1
    by_cases hc : c = col
    · subst hc
      cases hg : g c with
      | none => simpa [List.filterMap_cons, hg] using find?_filterMap_of_not_mem g rest c hcnr
      | some v => simp [List.filterMap_cons, hg, List.find?_cons]
    · have hcol2 : col ∈ rest := by
        cases List.mem_cons.mp hcol with
        | inl hh => exact absurd hh.symm hc
        | inr hh => exact hh
      cases hg : g c with
      | none => simpa [List.filterMap_cons, hg] using ih hnd2 col hcol2
      | some v => simpa [List.filterMap_cons, hg, List.find?_cons, hc] using ih hnd2 col hcol2

/-- C5 (amended): for every recognized column, the built row dict carries
that column's key exactly when the column's header index is defined, and
the stored value is then the cell text when the index is within range of
the row's cell count and a null value (Python None) when it is out of
range; only columns with an undefined index are omitted from the record. -/
theorem c5_field_present_iff_index_defined (hs tds : List String) (col : String)
    (h : col ∈ recognizedCols) :
    dictGetOpt (buildCols hs tds) col = (idx hs col).map fun i => tds[i]? := by
  have hnd : recognizedCols.Nodup := by decide
  have hrw : buildCols hs tds
      = recognizedCols.filterMap fun c =>
          ((idx hs c).map fun i => tds[i]?).map fun v => (c, v) := by
    unfold buildCols
    apply List.filterMap_congr
    intro c _
    rw [Option.map_map]
    rfl
  rw [dictGetOpt, hrw]
  exact find?_filterMap_of_mem (fun c => (idx hs c).map fun i => tds[i]?) recognizedCols hnd col h

/-- C5 witness: with header labels Date and Opponent and a one-cell data
row, the Opponent field is present and holds a null value (its index 1 is
out of range of the single cell). -/
theorem c5_witness :
    dictGetOpt (buildCols ["Date", "Opponent"] ["9/1"]) "Opponent" = some none :=
  (c5_field_present_iff_index_defined ["Date", "Opponent"] ["9/1"] "Opponent"
    (by decide)).trans rfl

/-- Setting a key makes its lookup return the new value. -/
theorem dictGet_dictSet_self {α : Type} (m : List (String × α)) (k : String) (v : α) :
    dictGet (dictSet m k v) k = some v := by
  induction m with
  | nil => simp [dictSet, dictGet]
  | cons p rest ih =>
    by_cases hp : p.1 = k
    · simp [dictSet, dictGet, hp]
    · simpa [dictSet, dictGet, List.find?_cons, hp] using ih

/-- Setting one key leaves lookups of other keys unchanged. -/
theorem dictGet_dictSet_ne {α : Type} (m : List (String × α)) (k k2 : String) (v : α)
    (h : k2 ≠ k) : dictGet (dictSet m k v) k2 = dictGet m k2 := by
  have hkk : ¬ k = k2 := fun he => h he.symm
  induction m with
  | nil => simp [dictSet, dictGet, hkk]
  | cons p rest ih =>
    by_cases hp : p.1 = k
    · rw [dictSet, if_pos (by simp [hp])]
      rw [dictGet, dictGet, List.find?_cons_of_neg _ (by simp [hkk]),
        List.find?_cons_of_neg _ (by simp [hp, hkk])]
    · rw [dictSet, if_neg (by simp [hp])]
      by_cases hp2 : p.1 = k2
      · rw [dictGet, dictGet, List.find?_cons_of_pos _ (by simp [hp2]),
          List.find?_cons_of_pos _ (by simp [hp2])]
      · rw [dictGet, dictGet, List.find?_cons_of_neg _ (by simp [hp2]),
          List.find?_cons_of_neg _ (by simp [hp2])]
        exact ih

/-- Every entry of dictSet m k v is the new entry or an entry of m. -/
theorem mem_dictSet {α : Type} (m : List (String × α)) (k : String) (v : α)
    (kv : String × α) (h : kv ∈ dictSet m k v) : kv = (k, v) ∨ kv ∈ m := by
  induction m with
  | nil => simpa [dictSet] using h
  | cons p rest ih =>
    by_cases hp : p.1 = k
    · rw [dictSet, if_pos (by simp [hp])] at h
      cases List.mem_cons.mp h with
      | inl hh => exact Or.inl hh
      | inr hh => exact Or.inr (List.mem_cons_of_mem p hh)
    · rw [dictSet, if_neg (by simp [hp])] at h
      cases List.mem_cons.mp h with
      | inl hh => exact Or.inr (hh ▸ List.mem_cons_self p rest)
      | inr hh =>
        cases ih hh with
        | inl hh2 => exact Or.inl hh2
        | inr hh2 => exact Or.inr (List.mem_cons_of_mem p hh2)

/-- Every key of dictSet m k v is the new key or a key of m. -/
theorem mem_keys_dictSet {α : Type} (m : List (String × α)) (k : String) (v : α)
    (a : String) (h : a ∈ keys (dictSet m k v)) : a = k ∨ a ∈ keys m := by
  rw [keys, List.mem_map] at h
  obtain ⟨kv, hkv, hk⟩ := h
  cases mem_dictSet m k v kv hkv with
  | inl hh => exact Or.inl (by rw [← hk, hh])
  | inr hh => exact Or.inr (by rw [keys, List.mem_map]; exact ⟨kv, hh, hk⟩)

/-- dictSet preserves distinctness of keys. -/
theorem nodup_keys_dictSet {α : Type} (m : List (String × α)) (k : String) (v : α)
    (h : (keys m).Nodup) : (keys (dictSet m k v)).Nodup := by
  induction m with
  | nil => simp [dictSet, keys]
  | cons p rest ih =>
    rw [keys, List.map_cons, List.nodup_cons] at h
    by_cases hp : p.1 = k
    · rw [dictSet, if_pos (by simp [hp]), keys, List.map_cons, List.nodup_cons]
      exact ⟨by rw [← hp]; exact h.1, h.2⟩
    · rw [dictSet, if_neg (by simp [hp]), keys, List.map_cons, List.nodup_cons]
      refine ⟨fun hmem => ?_, ih h.2⟩
      cases mem_keys_dictSet rest k v p.1 hmem with
      | inl hh => exact hp hh
      | inr hh => exact h.1 hh

/-- Updating with keys that avoid k leaves the lookup of k unchanged. -/
theorem dictGet_dictUpdate_not_mem {α : Type} :
    ∀ (d m : List (String × α)) (k : String), k ∉ keys d →
      dictGet (dictUpdate m d) k = dictGet m k := by
  intro d
  induction d with
  | nil => intro m k _; rfl
  | cons p rest ih =>
    intro m k hk
    have hk1 : k ≠ p.1 := fun he => hk (by rw [keys, List.map_cons]; exact he ▸ List.mem_cons_self _ _)
    have hk2 : k ∉ keys rest := fun hm => hk (by rw [keys, List.map_cons]; exact List.mem_cons_of_mem _ hm)
    rw [show dictUpdate m (p :: rest) = dictUpdate (dictSet m p.1 p.2) rest from rfl]
    rw [ih (dictSet m p.1 p.2) k hk2]
    exact dictGet_dictSet_ne m p.1 k p.2 hk1

/-- When the update dict has distinct keys, a key it maps ends up mapped to
exactly its value in the updated dict: the update fully replaces any prior
value under that key. -/
theorem dictGet_dictUpdate_of_get {α : Type} :
    ∀ (d m : List (String × α)) (k : String) (v : α), (keys d).Nodup →
      dictGet d k = some v → dictGet (dictUpdate m d) k = some v := by
  intro d
  induction d with
  | nil => intro m k v _ hg; simp [dictGet] at hg
  | cons p rest ih =>
    intro m k v hnd hg
    rw [keys, List.map_cons, List.nodup_cons] at hnd
    rw [show dictUpdate m (p :: rest) = dictUpdate (dictSet m p.1 p.2) rest from rfl]
    by_cases hp : p.1 = k
    · have hv : p.2 = v := by
        rw [dictGet, List.find?_cons_of_pos _ (by simp [hp])] at hg
        simpa using hg
      rw [dictGet_dictUpdate_not_mem rest (dictSet m p.1 p.2) k (hp ▸ hnd.1), hp, ← hv]
      exact dictGet_dictSet_self m k p.2
    · rw [dictGet, List.find?_cons_of_neg _ (by simp [hp])] at hg
      exact ih (dictSet m p.1 p.2) k v hnd.2 hg

/-- Structure of one caption step: the mapping is unchanged, or one key is
set to a walkRows result computed with the page's classification code. -/
theorem processCaption_shape (code : String) (st : ParseState) (e : CapEntry)
    (st2 : ParseState) (h : processCaption code st e = .ok st2) :
    st2.1 = st.1
      ∨ ∃ (hs : List String) (tn td : String) (follow : List Row),
          st2.1 = dictSet st.1 (norm tn) (walkRows hs tn td code follow) := by
  simp only [processCaption] at h
  split at h
  · cases h; exact Or.inl rfl
  · rename_i trs _
    split at h
    · rename_i hs i _
      cases h
      by_cases hre : (walkRows hs (pyStrip (stripParenSuffix e.caption)) e.caption code
          (trs.drop (i + 1))).isEmpty
      · exact Or.inl (by simp [hre])
      · refine Or.inr ⟨hs, pyStrip (stripParenSuffix e.caption), e.caption, trs.drop (i + 1), ?_⟩
        simp [hre]
    · rename_i hs _
      split at h
      · cases h; exact Or.inl rfl
      · split at h
        · exact absurd h (by simp)
        · rename_i oldTrs oldI hstale
          cases h
          by_cases hre : (walkRows hs (pyStrip (stripParenSuffix e.caption)) e.caption code
              (oldTrs.drop (oldI + 1))).isEmpty
          · exact Or.inl (by simp [hre])
          · refine Or.inr ⟨hs, pyStrip (stripParenSuffix e.caption), e.caption,
              oldTrs.drop (oldI + 1), ?_⟩
            simp [hre]

/-- Each caption step preserves distinctness of the team keys. -/
theorem processCaption_nodup (code : String) (st : ParseState) (e : CapEntry)
    (st2 : ParseState) (h : processCaption code st e = .ok st2)
    (hnd : (keys st.1).Nodup) : (keys st2.1).Nodup := by
  cases processCaption_shape code st e st2 h with
  | inl hh => rw [hh]; exact hnd
  | inr hh =>
    obtain ⟨hs, tn, td, follow, hh⟩ := hh
    rw [hh]
    exact nodup_keys_dictSet st.1 _ _ hnd

/-- The caption loop preserves distinctness of the team keys. -/
theorem runCaptions_nodup :
    ∀ (entries : List CapEntry) (code : String) (st st2 : ParseState),
      runCaptions code entries st = .ok st2 → (keys st.1).Nodup → (keys st2.1).Nodup := by
  intro entries
  induction entries with
  | nil => intro code st st2 h hnd; cases h; exact hnd
  | cons e rest ih =>
    intro code st st2 h hnd
    rw [runCaptions] at h
    split at h
    · exact absurd h (by simp)
    · rename_i st3 hmid
      exact ih code st3 st2 h (processCaption_nodup code st e st3 hmid hnd)

/-- A successful parse returns a mapping with distinct team keys. -/
theorem parse_class_page_nodup (entries : List CapEntry) (code : String) (m : ByTeam)
    (h : parse_class_page entries code = .ok m) : (keys m).Nodup := by
  rw [parse_class_page] at h
  cases hrun : runCaptions code entries ([], none) with
  | error u => rw [hrun] at h; simp [Except.map] at h
  | ok st2 =>
    rw [hrun] at h
    simp only [Except.map] at h
    cases h
    exact runCaptions_nodup entries code ([], none) st2 hrun (by simp [keys])

/-- C6: when the same team key is mapped by the pages of two
classifications processed in order, the final merged mapping sends that key
to exactly the record sequence of the later classification — a full
replacement of the earlier sequence, not a merge. -/
theorem c6_later_classification_wins (ca cb k : String) (ea eb : List CapEntry)
    (ma mb : ByTeam) (va vb : List ResultRec)
    (ha : parse_class_page ea ca = .ok ma) (hb : parse_class_page eb cb = .ok mb)
    (_hka : dictGet ma k = some va) (hkb : dictGet mb k = some vb) :
    dictGet (mainByTeam [(ca, .ok ea), (cb, .ok eb)]) k = some vb := by
  have hnb : (keys mb).Nodup := parse_class_page_nodup eb cb mb hb
  have hrun : mainByTeam [(ca, .ok ea), (cb, .ok eb)] = dictUpdate (dictUpdate [] ma) mb := by
    simp [mainByTeam, classData, ha, hb]
  rw [hrun]
  exact dictGet_dictUpdate_of_get mb (dictUpdate [] ma) k vb hnb hkb

/-- C6 witness: classifications "A" and "B" each map the key "t"; the merged
output maps "t" to classification B's single record only. -/
theorem c6_witness :
    dictGet (mainByTeam [("A", .ok exPageA), ("B", .ok exPageB)]) "t" = some [recTB] :=
  c6_later_classification_wins "A" "B" "t" exPageA exPageB
    [("t", [recTA])] [("t", [recTB])] [recTA] [recTB] rfl rfl rfl rfl

/-- When every classification fails, the accumulating fold leaves any
accumulator unchanged. -/
theorem foldl_mainByTeam_all_err :
    ∀ (l : List Page) (acc : ByTeam), (∀ q ∈ l, classData q.1 q.2 = .error ()) →
      l.foldl
        (fun acc2 p =>
          match classData p.1 p.2 with
          | .error _ => acc2
          | .ok data => dictUpdate acc2 data) acc = acc := by
  intro l
  induction l with
  | nil => intro acc _; rfl
  | cons q rest ih =>
    intro acc hall
    rw [List.foldl_cons]
    have hq : classData q.1 q.2 = .error () := hall q (List.mem_cons_self q rest)
    rw [show (match classData q.1 q.2 with
        | .error _ => acc
        | .ok data => dictUpdate acc data) = acc from by rw [hq]]
    exact ih acc fun r hr => hall r (List.mem_cons_of_mem q hr)

/-- When every classification fails, one warning is emitted per
classification, in order. -/
theorem mainWarnings_all_err :
    ∀ (l : List Page), (∀ q ∈ l, classData q.1 q.2 = .error ()) →
      mainWarnings l = l.map (·.1) := by
  intro l
  induction l with
  | nil => intro _; rfl
  | cons q rest ih =>
    intro hall
    have hq : classData q.1 q.2 = .error () := hall q (List.mem_cons_self q rest)
    have ih2 := ih fun r hr => hall r (List.mem_cons_of_mem q hr)
    simp only [mainWarnings, List.filterMap_cons, hq] at ih2 ⊢
    rw [ih2, List.map_cons]

/-- C7: a failed classification — fetch or parse — is absorbed at the
per-classification boundary: the by_team mapping is the one computed from
the remaining classifications, a warning naming the classification is
recorded in order, and the run still produces an output document; when
every classification fails the document's by_team mapping is empty while
one warning per classification is recorded. -/
theorem c7_failures_isolated_and_run_completes (xs ys : List Page) (p : Page)
    (pages : List Page) (t : Nat)
    (hp : classData p.1 p.2 = .error ())
    (hall : ∀ q ∈ pages, classData q.1 q.2 = .error ()) :
    mainByTeam (xs ++ p :: ys) = mainByTeam (xs ++ ys)
      ∧ mainWarnings (xs ++ p :: ys) = mainWarnings xs ++ p.1 :: mainWarnings ys
      ∧ (outputDoc t pages).by_team = []
      ∧ mainWarnings pages = pages.map (·.1) := by
  refine ⟨?_, ?_, ?_, mainWarnings_all_err pages hall⟩
  · simp [mainByTeam, List.foldl_append, hp]
  · simp [mainWarnings, List.filterMap_append, List.filterMap_cons, hp]
  · exact foldl_mainByTeam_all_err pages [] hall

/-- C7 witness: with classifications A and B succeeding and C1 failing in
between, the mapping equals the one from A and B alone and the warning for
C1 sits between theirs; a run where one classification's fetch fails and
the other's parse fails yields an empty mapping and two warnings. -/
theorem c7_witness :
    mainByTeam [pageGoodA, pageErrC1, pageGoodB] = mainByTeam [pageGoodA, pageGoodB]
      ∧ mainWarnings [pageGoodA, pageErrC1, pageGoodB]
          = mainWarnings [pageGoodA] ++ "C1" :: mainWarnings [pageGoodB]
      ∧ (outputDoc 0 pagesAllFail).by_team = []
      ∧ mainWarnings pagesAllFail = pagesAllFail.map (·.1) :=
  c7_failures_isolated_and_run_completes [pageGoodA] [pageGoodB] pageErrC1 pagesAllFail 0
    rfl (by
      intro q hq
      simp only [pagesAllFail, List.mem_cons, List.not_mem_nil, or_false] at hq
      rcases hq with rfl | rfl
      · rfl
      · rfl)

/-- C8: the effective class of a built record is the record's own Class
column value when that value is present and non-empty, and the
classification code of the source page when the Class column is absent,
null, or empty. -/
theorem c8_effective_class (hs tds : List String) (team disp code : String) :
    (∀ s : String,
        dictGetOpt (buildRec hs tds team disp code).cols "Class" = some (some s) → s ≠ "" →
          (buildRec hs tds team disp code).classEff = s)
      ∧ ((dictGetOpt (buildRec hs tds team disp code).cols "Class" = none
            ∨ dictGetOpt (buildRec hs tds team disp code).cols "Class" = some none
            ∨ dictGetOpt (buildRec hs tds team disp code).cols "Class" = some (some ""))
          → (buildRec hs tds team disp code).classEff = code) := by
  constructor
  · intro s hlook hne
    show pyOr (dictGetOpt (buildCols hs tds) "Class") code = s
    rw [show dictGetOpt (buildRec hs tds team disp code).cols "Class"
        = dictGetOpt (buildCols hs tds) "Class" from rfl] at hlook
    rw [hlook, pyOr, if_neg hne]
  · intro hlook
    show pyOr (dictGetOpt (buildCols hs tds) "Class") code = code
    rw [show dictGetOpt (buildRec hs tds team disp code).cols "Class"
        = dictGetOpt (buildCols hs tds) "Class" from rfl] at hlook
    rcases hlook with h | h | h
    · rw [h]; rfl
    · rw [h]; rfl
    · rw [h]
      simp [pyOr]

/-- C8 witness: a record whose Class cell reads "B" keeps "B" as effective
class; a record without a Class column takes the page code "A". -/
theorem c8_witness :
    (buildRec ["Class"] ["B"] "T" "T (1-0)" "A").classEff = "B"
      ∧ (buildRec ["Date"] ["9/1"] "T" "T (1-0)" "A").classEff = "A" :=
  ⟨(c8_effective_class ["Class"] ["B"] "T" "T (1-0)" "A").1 "B" rfl (by decide),
   (c8_effective_class ["Date"] ["9/1"] "T" "T (1-0)" "A").2 (Or.inl rfl)⟩

/-- The Python-or fallback never yields the empty string when its default
is non-empty. -/
theorem pyOr_ne_empty (v : Option (Option String)) (code : String) (h : code ≠ "") :
    pyOr v code ≠ "" := by
  match v with
  | none => exact h
  | some none => exact h
  | some (some s) =>
    rw [pyOr]
    by_cases hs : s = ""
    · rw [if_pos hs]; exact h
    · rw [if_neg hs]; exact hs

/-- Every record produced by the row walk is built by buildRec with the
walk's classification code. -/
theorem mem_walkRows (hs : List String) (team disp code : String) :
    ∀ (l : List Row) (r : ResultRec), r ∈ walkRows hs team disp code l →
      ∃ tds, r = buildRec hs tds team disp code := by
  intro l
  induction l with
  | nil => intro r hr; simp [walkRows] at hr
  | cons row rest ih =>
    intro r hr
    by_cases hc : row.hasCaption
    · simp [walkRows, hc] at hr
    · by_cases he : row.tds.isEmpty
      · rw [walkRows, if_neg (by simp [hc]), if_pos (by simp [he])] at hr
        exact ih r hr
      · by_cases hstop : (row.tds.length == 1
            && containsSub (row.tds.headD "") "Total Points") = true
        · rw [walkRows, if_neg (by simp [hc]), if_neg (by simp [he]), if_pos hstop] at hr
          simp at hr
        · rw [walkRows, if_neg (by simp [hc]), if_neg (by simp [he]), if_neg hstop] at hr
          by_cases hb : anyNonBlank (buildRec hs row.tds team disp code)
          · rw [if_pos hb] at hr
            cases List.mem_cons.mp hr with
            | inl hh => exact ⟨row.tds, hh⟩
            | inr hh => exact ih r hh
          · rw [if_neg hb] at hr
            exact ih r hr

/-- Each caption step preserves the invariant that every stored record has
a non-empty effective class, given a non-empty classification code. -/
theorem processCaption_classEff (code : String) (st : ParseState) (e : CapEntry)
    (st2 : ParseState) (hcode : code ≠ "") (h : processCaption code st e = .ok st2)
    (hinv : ∀ kv ∈ st.1, ∀ r ∈ kv.2, r.classEff ≠ "") :
    ∀ kv ∈ st2.1, ∀ r ∈ kv.2, r.classEff ≠ "" := by
  cases processCaption_shape code st e st2 h with
  | inl hh => rw [hh]; exact hinv
  | inr hh =>
    obtain ⟨hs, tn, td, follow, hh⟩ := hh
    rw [hh]
    intro kv hkv r hr
    cases mem_dictSet st.1 _ _ kv hkv with
    | inl hkv2 =>
      rw [hkv2] at hr
      obtain ⟨tds, hrb⟩ := mem_walkRows hs tn td code follow r hr
      rw [hrb]
      exact pyOr_ne_empty _ code hcode
    | inr hkv2 => exact hinv kv hkv2 r hr

/-- The caption loop preserves the non-empty effective-class invariant. -/
theorem runCaptions_classEff :
    ∀ (entries : List CapEntry) (code : String) (st st2 : ParseState), code ≠ "" →
      runCaptions code entries st = .ok st2 →
      (∀ kv ∈ st.1, ∀ r ∈ kv.2, r.classEff ≠ "") →
      ∀ kv ∈ st2.1, ∀ r ∈ kv.2, r.classEff ≠ "" := by
  intro entries
  induction entries with
  | nil => intro code st st2 _ h hinv; cases h; exact hinv
  | cons e rest ih =>
    intro code st st2 hcode h hinv
    rw [runCaptions] at h
    split at h
    · exact absurd h (by simp)
    · rename_i st3 hmid
      exact ih code st3 st2 hcode h (processCaption_classEff code st e st3 hcode hmid hinv)

/-- C10: when the classification code passed to parse_class_page is
non-empty, every record of every sequence in the returned mapping carries a
non-empty effective class — in particular every record already carries it
when it reaches the blank-row check, which is why that check never fires
under a non-empty code. -/
theorem c10_records_carry_nonempty_class (entries : List CapEntry) (code : String)
    (m : ByTeam) (hcode : code ≠ "") (h : parse_class_page entries code = .ok m) :
    ∀ kv ∈ m, ∀ r ∈ kv.2, r.classEff ≠ "" := by
  rw [parse_class_page] at h
  cases hrun : runCaptions code entries ([], none) with
  | error u => rw [hrun] at h; simp [Except.map] at h
  | ok st2 =>
    rw [hrun] at h
    simp only [Except.map] at h
    cases h
    exact runCaptions_classEff entries code ([], none) st2 hcode hrun
      (by intro kv hkv; cases hkv)

/-- C10 witness: the record extracted from the Team X page under code "A"
has the non-empty effective class "A". -/
theorem c10_witness : recTeamX.classEff ≠ "" :=
  c10_records_carry_nonempty_class exTeamXDoc "A" [("teamx", [recTeamX])] (by decide) rfl
    ("teamx", [recTeamX]) (List.mem_singleton.mpr rfl) recTeamX (List.mem_singleton.mpr rfl)

end NsaaVb
